import Mathlib

/-!
Verification of the concurrent ingestion pipeline of the reiden-data-dump
repository.  The Python source is shallowly embedded: pure fragments become
Lean functions, the database tables become lists of typed rows, the bounded
queue and the flusher threads become explicit step functions over event
sequences, and fallible database operations return Except values.  Floating
point rates are modelled over the rationals.
-/

/-! ## Adaptive rate limiter (import_transaction_rent.py, class AdaptiveRateLimiter)

The mutable counters guarded by the lock are captured as a record.
recent_timeouts stands for the number of entries of the timeout deque that
fall inside the two minute window, recent_successes for len(success_requests).
-/

structure RateLimiterState where
  current_rate : ℚ
  min_rate : ℚ
  max_rate : ℚ
  recent_timeouts : ℕ
  recent_successes : ℕ
  total_429_errors : ℕ
  total_requests : ℕ

/-- timeout_rate = recent_timeouts / max(recent_requests, 1) with
recent_requests = len(success_requests) + recent_timeouts. -/
def timeout_rate (s : RateLimiterState) : ℚ :=
  (s.recent_timeouts : ℚ) / ((max (s.recent_successes + s.recent_timeouts) 1 : ℕ) : ℚ)

/-- error_rate = total_429_errors / max(total_requests, 1). -/
def error_rate (s : RateLimiterState) : ℚ :=
  (s.total_429_errors : ℚ) / ((max s.total_requests 1 : ℕ) : ℚ)

/-- Body of AdaptiveRateLimiter.adjust_rate, run once the adjustment interval
has elapsed: returns the new current_rate. -/
def adjust_rate (s : RateLimiterState) : ℚ :=
  if timeout_rate s > 1/10 then
    max s.min_rate (s.current_rate * (7/10))
  else if timeout_rate s > 1/20 then
    max s.min_rate (s.current_rate * (17/20))
  else if timeout_rate s < 1/100 ∧ error_rate s < 1/50 then
    min s.max_rate (s.current_rate * (11/10))
  else
    s.current_rate

/-- Claim C3: when the rate adjustment runs, a windowed timeout-rate above 10
percent multiplies current_rate by 0.7 (clamped at min_rate, a strict decrease
while above min_rate); a timeout-rate above the lower 5 percent threshold
multiplies it by 0.85; near-zero timeout and throttle rates multiply it by 1.1
(a strict increase while below max_rate, never exceeding max_rate); and the
result always lies in the interval from min_rate to max_rate. -/
theorem adjust_rate_correct (s : RateLimiterState)
    (hmin : 0 < s.min_rate) (hlo : s.min_rate ≤ s.current_rate)
    (hhi : s.current_rate ≤ s.max_rate) :
    (1/10 < timeout_rate s →
      adjust_rate s = max s.min_rate (s.current_rate * (7/10)) ∧
      (s.min_rate < s.current_rate → adjust_rate s < s.current_rate)) ∧
    (timeout_rate s ≤ 1/10 → 1/20 < timeout_rate s →
      adjust_rate s = max s.min_rate (s.current_rate * (17/20))) ∧
    (timeout_rate s < 1/100 → error_rate s < 1/50 →
      adjust_rate s = min s.max_rate (s.current_rate * (11/10)) ∧
      (s.current_rate < s.max_rate → s.current_rate < adjust_rate s)) ∧
    s.min_rate ≤ adjust_rate s ∧ adjust_rate s ≤ s.max_rate := by
  have hr0 : 0 < s.current_rate := lt_of_lt_of_le hmin hlo
  refine ⟨?_, ?_, ?_, ?_⟩
  · intro h
    have heq : adjust_rate s = max s.min_rate (s.current_rate * (7/10)) := by
      simp only [adjust_rate, gt_iff_lt, if_pos h]
    refine ⟨heq, ?_⟩
    intro hlt
    rw [heq, max_lt_iff]
    exact ⟨hlt, by nlinarith⟩
  · intro h1 h2
    have hn1 : ¬ (timeout_rate s > 1/10) := not_lt.mpr h1
    simp only [adjust_rate, gt_iff_lt, if_neg hn1, if_pos h2]
  · intro h1 h2
    have hn1 : ¬ (timeout_rate s > 1/10) := by
      simp only [gt_iff_lt, not_lt]
      calc timeout_rate s ≤ 1/100 := le_of_lt h1
        _ ≤ 1/10 := by norm_num
    have hn2 : ¬ (timeout_rate s > 1/20) := by
      simp only [gt_iff_lt, not_lt]
      calc timeout_rate s ≤ 1/100 := le_of_lt h1
        _ ≤ 1/20 := by norm_num
    have heq : adjust_rate s = min s.max_rate (s.current_rate * (11/10)) := by
      simp only [adjust_rate, gt_iff_lt, if_neg hn1, if_neg hn2, if_pos (And.intro h1 h2)]
    refine ⟨heq, ?_⟩
    intro hlt
    rw [heq, lt_min_iff]
    exact ⟨hlt, by nlinarith⟩
  · have hmble : s.min_rate ≤ s.max_rate := le_trans hlo hhi
    unfold adjust_rate
    split_ifs with h1 h2 h3
    · constructor
      · exact le_max_left _ _
      · refine max_le hmble ?_
        calc s.current_rate * (7/10) ≤ s.current_rate := by nlinarith
          _ ≤ s.max_rate := hhi
    · constructor
      · exact le_max_left _ _
      · refine max_le hmble ?_
        calc s.current_rate * (17/20) ≤ s.current_rate := by nlinarith
          _ ≤ s.max_rate := hhi
    · constructor
      · refine le_min hmble ?_
        calc s.min_rate ≤ s.current_rate := hlo
          _ ≤ s.current_rate * (11/10) := by nlinarith
      · exact min_le_left _ _
    · exact ⟨hlo, hhi⟩

/-- Witness for adjust_rate_correct at a concrete window with 20 timeouts out
of 100 recent requests: the rate 2 drops to 1.4 and stays above min_rate. -/
theorem adjust_rate_correct_witness :
    adjust_rate ⟨2, 1/2, 5, 20, 80, 0, 100⟩ = 7/5 ∧
    adjust_rate ⟨2, 1/2, 5, 20, 80, 0, 100⟩ < 2 := by
  have h := adjust_rate_correct ⟨2, 1/2, 5, 20, 80, 0, 100⟩
    (by norm_num) (by norm_num) (by norm_num)
  have ht : (1:ℚ)/10 < timeout_rate ⟨2, 1/2, 5, 20, 80, 0, 100⟩ := by
    simp only [timeout_rate]
    norm_num
  obtain ⟨heq, hdec⟩ := h.1 ht
  constructor
  · rw [heq]
    norm_num
  · exact hdec (by norm_num)

/-! ## CMA sales records (import_cma_sales.py, _process_cma_sales_data)

A Record carries the natural key used by the cma_sales conflict clause:
(property_id, alias, currency, measurement, property_type, property_subtype,
comparable_property_id).  The remaining non-key columns are summarised by the
price field, which is all the claims inspect.
-/

structure CmaRecord where
  property_id : Nat
  alias_ : String  -- source column name: alias (a Lean keyword)
  currency : String
  measurement : String
  property_type : String
  property_subtype : String
  comparable_property_id : Nat
  price : Option Int
deriving DecidableEq

def rec0 : CmaRecord :=
  ⟨1, "last-fifteen", "aed", "int", "Commercial", "Shop", 100, some 1⟩

def rec1 : CmaRecord :=
  ⟨1, "last-fifteen", "aed", "int", "Commercial", "Shop", 101, some 2⟩

/-! ## Bounded ingestion queue (import_cma_sales.py, CMASalesImporter)

self.data_queue = Queue(maxsize=200000); add_to_queue does
put(record, timeout=5.0) and, on Full, logs and moves to the next record.
An interleaving is a sequence of events: a get by a flusher thread, or a put
attempt whose five second wait saw no space (a put that does find space within
the window is an interleaving where the freeing get event comes first).
-/

def queue_maxsize : Nat := 200000

inductive QueueEvent where
  | putAttempt (r : CmaRecord)
  | take
deriving DecidableEq

structure QueueState where
  queue : List CmaRecord
  dropped : List CmaRecord
deriving DecidableEq

def queueStep (s : QueueState) : QueueEvent → QueueState
  | QueueEvent.putAttempt r =>
      if s.queue.length < queue_maxsize then
        { s with queue := s.queue ++ [r] }
      else
        { s with dropped := s.dropped ++ [r] }
  | QueueEvent.take => { s with queue := s.queue.tail }

def queueRun (s : QueueState) (evs : List QueueEvent) : QueueState :=
  evs.foldl queueStep s

lemma queueStep_length_le (s : QueueState) (e : QueueEvent)
    (h : s.queue.length ≤ queue_maxsize) :
    (queueStep s e).queue.length ≤ queue_maxsize := by
  cases e with
  | putAttempt r =>
      simp only [queueStep]
      split_ifs with hlt
      · simpa using hlt
      · simpa using h
  | take =>
      simp only [queueStep]
      calc s.queue.tail.length ≤ s.queue.length := by
            cases s.queue <;> simp
        _ ≤ queue_maxsize := h

/-- Claim C2 counterexample: it is not the case that every interleaving from a
legal state drops no record; a put attempt against a queue that stays full for
the whole timeout drops its record. -/
theorem add_to_queue_never_drops_false :
    ¬ (∀ (s : QueueState) (evs : List QueueEvent),
        s.queue.length ≤ queue_maxsize → s.dropped = [] →
        (queueRun s evs).dropped = []) := by
  intro h
  have hfull := h ⟨List.replicate queue_maxsize rec0, []⟩
    [QueueEvent.putAttempt rec1] (by simp) rfl
  have : (queueRun ⟨List.replicate queue_maxsize rec0, []⟩
      [QueueEvent.putAttempt rec1]).dropped = [rec1] := by
    simp [queueRun, queueStep]
  rw [this] at hfull
  exact List.cons_ne_nil rec1 [] hfull

/-- Claim C2, amended: under every interleaving of put attempts and gets the
queue length never exceeds the configured capacity of 200000; but a producer
whose put still finds the queue full when the five second timeout expires
drops the record (it is appended to the log of dropped records and the queue
is left unchanged) instead of blocking until space is available. -/
theorem queue_bounded_and_timeout_drops (s : QueueState) (evs : List QueueEvent)
    (hlen : s.queue.length ≤ queue_maxsize) :
    (queueRun s evs).queue.length ≤ queue_maxsize ∧
    (∀ r, queue_maxsize ≤ s.queue.length →
      queueStep s (QueueEvent.putAttempt r) =
        { s with dropped := s.dropped ++ [r] }) := by
  constructor
  · induction evs generalizing s with
    | nil => simpa [queueRun] using hlen
    | cons e evs ih =>
        have hstep := queueStep_length_le s e hlen
        simpa [queueRun] using ih (queueStep s e) hstep
  · intro r hfull
    simp only [queueStep, if_neg (not_lt.mpr hfull)]

/-- Witness for queue_bounded_and_timeout_drops: from the empty queue a put
attempt keeps the length within bounds, and a put attempt on a full queue
drops the record. -/
theorem queue_bounded_and_timeout_drops_witness :
    (queueRun ⟨[], []⟩ [QueueEvent.putAttempt rec0]).queue.length ≤ queue_maxsize ∧
    queueStep ⟨List.replicate queue_maxsize rec0, []⟩ (QueueEvent.putAttempt rec1) =
      ⟨List.replicate queue_maxsize rec0, [rec1]⟩ := by
  constructor
  · exact (queue_bounded_and_timeout_drops ⟨[], []⟩ [QueueEvent.putAttempt rec0]
      (by simp)).1
  · exact (queue_bounded_and_timeout_drops ⟨List.replicate queue_maxsize rec0, []⟩ []
      (by simp)).2 rec1 (by simp)

/-! ## Flush workers (import_cma_sales.py _flusher_worker and
import_cma2_rents.py _flusher_worker)

Each loop iteration of the worker is one event: a dequeued single record, a
dequeued re-queued chunk (cma_sales only), a queue-get timeout (the Empty
branch, with the booleans recording whether the flush interval has elapsed
since the last flush and whether processing_complete is set), or the None
poison pill.  The state is the private buffer, the list of batches flushed so
far, and whether the loop has exited.
-/

structure FlusherState where
  buffer : List CmaRecord
  flushed : List (List CmaRecord)
  exited : Bool
deriving DecidableEq

inductive FlushEvent where
  | record (r : CmaRecord)
  | chunk (rs : List CmaRecord)
  | timeout (elapsed_over_interval : Bool) (processing_complete : Bool)
  | poison
deriving DecidableEq

/-- One iteration of the cma_sales _flusher_worker.  On a record or chunk the
buffer is extended and flushed when it reaches batch_size; on an Empty timeout
a non-empty buffer is flushed once the 30 second interval has elapsed or
processing_complete is set (and the loop exits when processing_complete); on
the poison pill the loop breaks and the remaining buffer is flushed. -/
def flusherStep (batch_size : Nat) (s : FlusherState) : FlushEvent → FlusherState
  | FlushEvent.record r =>
      if s.exited then s else
      let buf := s.buffer ++ [r]
      if batch_size ≤ buf.length then
        { buffer := [], flushed := s.flushed ++ [buf], exited := s.exited }
      else { s with buffer := buf }
  | FlushEvent.chunk rs =>
      if s.exited then s else
      let buf := s.buffer ++ rs
      if batch_size ≤ buf.length then
        { buffer := [], flushed := s.flushed ++ [buf], exited := s.exited }
      else { s with buffer := buf }
  | FlushEvent.timeout over complete =>
      if s.exited then s else
      let s1 := if s.buffer ≠ [] ∧ (over = true ∨ complete = true) then
          { buffer := [], flushed := s.flushed ++ [s.buffer], exited := s.exited }
        else s
      if complete then { s1 with exited := true } else s1
  | FlushEvent.poison =>
      if s.exited then s else
      if s.buffer = [] then { s with exited := true }
      else { buffer := [], flushed := s.flushed ++ [s.buffer], exited := true }

inductive Flush2Event where
  | item (r : CmaRecord) (elapsed_over_interval : Bool)
  | idle
  | sentinel
deriving DecidableEq

/-- One iteration of the cma2_rents _flusher_worker: an appended item flushes
when the batch reaches batch_size or the five second interval has elapsed; the
Empty branch flushes any accumulated batch; the None sentinel flushes the
remaining batch before breaking. -/
def flusher2Step (batch_size : Nat) (s : FlusherState) : Flush2Event → FlusherState
  | Flush2Event.item r over =>
      if s.exited then s else
      let buf := s.buffer ++ [r]
      if batch_size ≤ buf.length ∨ over = true then
        { buffer := [], flushed := s.flushed ++ [buf], exited := s.exited }
      else { s with buffer := buf }
  | Flush2Event.idle =>
      if s.exited then s else
      if s.buffer = [] then s
      else { buffer := [], flushed := s.flushed ++ [s.buffer], exited := s.exited }
  | Flush2Event.sentinel =>
      if s.exited then s else
      if s.buffer = [] then { s with exited := true }
      else { buffer := [], flushed := s.flushed ++ [s.buffer], exited := true }

/-- Claim C7: in both flusher workers, appending a record that brings the
buffer to batch_size flushes the whole buffer immediately; a non-empty buffer
below batch_size is flushed on a queue timeout once the flush interval has
elapsed with no new arrivals; and a shutdown request flushes the buffered
partial batch before the worker exits its loop. -/
theorem flusher_triggers_correct (batch_size : Nat) (s : FlusherState)
    (hx : s.exited = false) :
    (∀ r, s.buffer.length + 1 = batch_size →
      flusherStep batch_size s (FlushEvent.record r) =
        ⟨[], s.flushed ++ [s.buffer ++ [r]], false⟩) ∧
    (s.buffer ≠ [] → s.buffer.length < batch_size →
      flusherStep batch_size s (FlushEvent.timeout true false) =
        ⟨[], s.flushed ++ [s.buffer], false⟩) ∧
    (s.buffer ≠ [] →
      flusherStep batch_size s FlushEvent.poison =
        ⟨[], s.flushed ++ [s.buffer], true⟩) ∧
    (∀ r, s.buffer.length + 1 = batch_size →
      flusher2Step batch_size s (Flush2Event.item r false) =
        ⟨[], s.flushed ++ [s.buffer ++ [r]], false⟩) ∧
    (s.buffer ≠ [] →
      flusher2Step batch_size s Flush2Event.idle =
        ⟨[], s.flushed ++ [s.buffer], false⟩) ∧
    (s.buffer ≠ [] →
      flusher2Step batch_size s Flush2Event.sentinel =
        ⟨[], s.flushed ++ [s.buffer], true⟩) := by
  refine ⟨?_, ?_, ?_, ?_, ?_, ?_⟩
  · intro r hlen
    simp [flusherStep, hx]
    omega
  · intro hne _
    simp [flusherStep, hx, hne]
  · intro hne
    simp [flusherStep, hx, hne]
  · intro r hlen
    simp [flusher2Step, hx]
    omega
  · intro hne
    simp [flusher2Step, hx, hne]
  · intro hne
    simp [flusher2Step, hx, hne]

/-- Witness for flusher_triggers_correct: a one-record buffer with batch size
two flushes on the arriving record, on an elapsed timeout, and on shutdown,
in both workers. -/
theorem flusher_triggers_correct_witness :
    flusherStep 2 ⟨[rec0], [], false⟩ (FlushEvent.record rec1) =
      ⟨[], [[rec0, rec1]], false⟩ ∧
    flusherStep 2 ⟨[rec0], [], false⟩ (FlushEvent.timeout true false) =
      ⟨[], [[rec0]], false⟩ ∧
    flusherStep 2 ⟨[rec0], [], false⟩ FlushEvent.poison =
      ⟨[], [[rec0]], true⟩ ∧
    flusher2Step 2 ⟨[rec0], [], false⟩ (Flush2Event.item rec1 false) =
      ⟨[], [[rec0, rec1]], false⟩ ∧
    flusher2Step 2 ⟨[rec0], [], false⟩ Flush2Event.idle =
      ⟨[], [[rec0]], false⟩ ∧
    flusher2Step 2 ⟨[rec0], [], false⟩ Flush2Event.sentinel =
      ⟨[], [[rec0]], true⟩ := by
  have h := flusher_triggers_correct 2 ⟨[rec0], [], false⟩ rfl
  exact ⟨h.1 rec1 rfl, h.2.1 (by simp) (by simp), h.2.2.1 (by simp),
    h.2.2.2.1 rec1 rfl, h.2.2.2.2.1 (by simp), h.2.2.2.2.2 (by simp)⟩

/-! ## Bulk upsert of cma_sales (utils/database.py, insert_cma_sales_data and
_bulk_insert_with_copy)

The destination table cma_sales is a list of rows whose uniqueness constraint
is the conflict target of the insert query: (property_id, alias, currency,
measurement, property_type, property_subtype, comparable_property_id).
Batches below 5000 rows go through execute_values with ON CONFLICT DO
NOTHING; batches of at least 5000 rows go through COPY, which carries no
conflict clause, inserts rows sequentially, and aborts (rolling back) at the
first uniqueness violation.
-/

structure CmaKey where
  property_id : Nat
  alias_ : String
  currency : String
  measurement : String
  property_type : String
  property_subtype : String
  comparable_property_id : Nat
deriving DecidableEq

def cmaKey (r : CmaRecord) : CmaKey :=
  ⟨r.property_id, r.alias_, r.currency, r.measurement, r.property_type,
    r.property_subtype, r.comparable_property_id⟩

def cmaKeys (t : List CmaRecord) : List CmaKey := t.map cmaKey

inductive DbError where
  | uniqueViolation
deriving DecidableEq

/-- One row of the execute_values insert with ON CONFLICT DO NOTHING: a row
whose natural key is already present is skipped. -/
def insertDoNothing (t : List CmaRecord) (r : CmaRecord) : List CmaRecord :=
  if cmaKey r ∈ cmaKeys t then t else t ++ [r]

def insertAllDoNothing (t : List CmaRecord) (b : List CmaRecord) : List CmaRecord :=
  b.foldl insertDoNothing t

/-- One row streamed by COPY into cma_sales: no conflict clause, so a row
whose natural key is already present makes the whole statement fail. -/
def copyRow (t : List CmaRecord) (r : CmaRecord) :
    Except DbError (List CmaRecord) :=
  if cmaKey r ∈ cmaKeys t then Except.error DbError.uniqueViolation
  else Except.ok (t ++ [r])

def bulk_insert_with_copy (t b : List CmaRecord) :
    Except DbError (List CmaRecord) :=
  b.foldlM copyRow t

/-- insert_cma_sales_data: an empty batch returns at once; a batch of at
least 5000 rows goes through COPY; a smaller batch goes through
execute_values with ON CONFLICT DO NOTHING. -/
def insert_cma_sales_data (t data_list : List CmaRecord) :
    Except DbError (List CmaRecord) :=
  if data_list = [] then Except.ok t
  else if 5000 ≤ data_list.length then bulk_insert_with_copy t data_list
  else Except.ok (insertAllDoNothing t data_list)

lemma mem_cmaKeys_insertDoNothing (t : List CmaRecord) (r : CmaRecord)
    (k : CmaKey) :
    k ∈ cmaKeys (insertDoNothing t r) ↔ k ∈ cmaKeys t ∨ k = cmaKey r := by
  unfold insertDoNothing
  split_ifs with hmem
  · constructor
    · exact fun h => Or.inl h
    · rintro (h | rfl)
      · exact h
      · exact hmem
  · simp [cmaKeys]

lemma mem_cmaKeys_insertAllDoNothing (t b : List CmaRecord) (k : CmaKey) :
    k ∈ cmaKeys (insertAllDoNothing t b) ↔
      k ∈ cmaKeys t ∨ ∃ r ∈ b, cmaKey r = k := by
  induction b generalizing t with
  | nil => simp [insertAllDoNothing]
  | cons r b ih =>
      have step : insertAllDoNothing t (r :: b) =
          insertAllDoNothing (insertDoNothing t r) b := rfl
      rw [step, ih, mem_cmaKeys_insertDoNothing]
      constructor
      · rintro ((h | rfl) | ⟨r2, hr2, rfl⟩)
        · exact Or.inl h
        · exact Or.inr ⟨r, List.mem_cons_self r b, rfl⟩
        · exact Or.inr ⟨r2, List.mem_cons_of_mem r hr2, rfl⟩
      · rintro (h | ⟨r2, hr2, rfl⟩)
        · exact Or.inl (Or.inl h)
        · rcases List.mem_cons.mp hr2 with rfl | hr2
          · exact Or.inl (Or.inr rfl)
          · exact Or.inr ⟨r2, hr2, rfl⟩

lemma nodup_cmaKeys_insertDoNothing (t : List CmaRecord) (r : CmaRecord)
    (h : (cmaKeys t).Nodup) : (cmaKeys (insertDoNothing t r)).Nodup := by
  unfold insertDoNothing
  split_ifs with hmem
  · exact h
  · have e : cmaKeys (t ++ [r]) = cmaKeys t ++ [cmaKey r] := by simp [cmaKeys]
    rw [e, List.nodup_append]
    refine ⟨h, List.nodup_singleton _, ?_⟩
    intro a ha hb
    rw [List.mem_singleton] at hb
    subst hb
    exact hmem ha

lemma nodup_cmaKeys_insertAllDoNothing (t b : List CmaRecord)
    (h : (cmaKeys t).Nodup) : (cmaKeys (insertAllDoNothing t b)).Nodup := by
  induction b generalizing t with
  | nil => exact h
  | cons r b ih => exact ih _ (nodup_cmaKeys_insertDoNothing t r h)

lemma insertAllDoNothing_of_all_mem (t b : List CmaRecord)
    (h : ∀ r ∈ b, cmaKey r ∈ cmaKeys t) : insertAllDoNothing t b = t := by
  induction b with
  | nil => rfl
  | cons r b ih =>
      have step : insertAllDoNothing t (r :: b) =
          insertAllDoNothing (insertDoNothing t r) b := rfl
      have hr : insertDoNothing t r = t := by
        unfold insertDoNothing
        exact if_pos (h r (List.mem_cons_self r b))
      rw [step, hr]
      exact ih fun r2 hr2 => h r2 (List.mem_cons_of_mem r hr2)

/-- Claim C1 counterexample: the bulk upsert is not idempotent for every
batch.  A batch of 5000 records takes the COPY path, which has no conflict
clause: on a repeated natural key the whole statement fails instead of
resolving the conflict, so no second application can reproduce the result of
a successful single application. -/
lemma except_bind_ok_eq {α β : Type} (a : α) (f : α → Except DbError β) :
    (Except.ok a >>= f) = f a := rfl

lemma except_bind_error_eq {α β : Type} (e : DbError)
    (f : α → Except DbError β) :
    ((Except.error e : Except DbError α) >>= f) = Except.error e := rfl

lemma bulk_insert_with_copy_dup_head (t : List CmaRecord) (r : CmaRecord)
    (rest : List CmaRecord) (h : cmaKey r ∉ cmaKeys t) :
    bulk_insert_with_copy t (r :: r :: rest) =
      Except.error DbError.uniqueViolation := by
  have e1 : copyRow t r = Except.ok (t ++ [r]) := by simp [copyRow, h]
  have e2 : copyRow (t ++ [r]) r = Except.error DbError.uniqueViolation := by
    have h2 : cmaKey r ∈ cmaKeys (t ++ [r]) := by simp [cmaKeys]
    simp [copyRow, h2]
  unfold bulk_insert_with_copy
  rw [List.foldlM_cons, e1, except_bind_ok_eq, List.foldlM_cons, e2,
    except_bind_error_eq]

theorem insert_cma_sales_idempotent_false :
    ¬ (∀ (b t : List CmaRecord), (cmaKeys t).Nodup →
        ∃ t2, insert_cma_sales_data t b = Except.ok t2 ∧
          insert_cma_sales_data t2 b = Except.ok t2) := by
  intro h
  obtain ⟨t2, h1, h2⟩ := h (List.replicate 5000 rec0) [] (by simp [cmaKeys])
  have hne : ¬ (List.replicate 5000 rec0 = ([] : List CmaRecord)) := by
    simp only [List.replicate_eq_nil_iff]
    norm_num
  have hge : 5000 ≤ (List.replicate 5000 rec0).length :=
    (List.length_replicate 5000 rec0).ge
  have e1 : insert_cma_sales_data [] (List.replicate 5000 rec0) =
      Except.error DbError.uniqueViolation := by
    unfold insert_cma_sales_data
    rw [if_neg hne, if_pos hge,
      show List.replicate 5000 rec0 = rec0 :: rec0 :: List.replicate 4998 rec0
        from rfl]
    exact bulk_insert_with_copy_dup_head [] rec0 _ (by simp [cmaKeys])
  rw [e1] at h1
  exact Except.noConfusion h1

/-- Claim C1, amended: for batches below the 5000-row COPY threshold the
upsert goes through ON CONFLICT DO NOTHING and is idempotent: upserting the
batch again onto the resulting state is a no-op, the natural keys of the
destination stay free of duplicates, and the set of persisted keys is the
union of the old keys and the batch keys regardless of the arrival order of
the records; batches of 5000 rows or more take the conflict-blind COPY path
refuted above. -/
theorem insert_cma_sales_small_batch_idempotent (t b : List CmaRecord)
    (hlen : b.length < 5000) (ht : (cmaKeys t).Nodup) :
    insert_cma_sales_data t b = Except.ok (insertAllDoNothing t b) ∧
    insert_cma_sales_data (insertAllDoNothing t b) b =
      Except.ok (insertAllDoNothing t b) ∧
    (cmaKeys (insertAllDoNothing t b)).Nodup ∧
    (∀ k, k ∈ cmaKeys (insertAllDoNothing t b) ↔
      k ∈ cmaKeys t ∨ ∃ r ∈ b, cmaKey r = k) := by
  have hnle : ¬ 5000 ≤ b.length := not_le.mpr hlen
  refine ⟨?_, ?_, nodup_cmaKeys_insertAllDoNothing t b ht,
    fun k => mem_cmaKeys_insertAllDoNothing t b k⟩
  · unfold insert_cma_sales_data
    split_ifs with hnil
    · subst hnil
      rfl
    · rfl
  · have hall : insertAllDoNothing (insertAllDoNothing t b) b =
        insertAllDoNothing t b := by
      refine insertAllDoNothing_of_all_mem _ _ fun r hr => ?_
      exact (mem_cmaKeys_insertAllDoNothing t b (cmaKey r)).mpr
        (Or.inr ⟨r, hr, rfl⟩)
    unfold insert_cma_sales_data
    split_ifs with hnil
    · subst hnil
      rfl
    · rw [hall]

/-- Witness for insert_cma_sales_small_batch_idempotent: a one-record batch
inserts once and re-upserting it changes nothing. -/
theorem insert_cma_sales_small_batch_idempotent_witness :
    insert_cma_sales_data [] [rec0] = Except.ok [rec0] ∧
    insert_cma_sales_data [rec0] [rec0] = Except.ok [rec0] := by
  obtain ⟨h1, h2, -, -⟩ := insert_cma_sales_small_batch_idempotent [] [rec0]
    (by norm_num) (by simp [cmaKeys])
  rw [show insertAllDoNothing [] [rec0] = [rec0] from rfl] at h1 h2
  exact ⟨h1, h2⟩

/-! ## Bulk insert into transaction_raw_rent (utils/database.py,
_bulk_insert_with_copy_optimized and
_bulk_insert_with_execute_values_fallback)

The fallback insert query carries ON CONFLICT (loc_location_id, currency,
measurement, date, price, size) WHERE date IS NOT NULL AND price IS NOT NULL
DO NOTHING, so the uniqueness constraint is a partial index that only covers
rows with a date and a price.  The COPY fast path has no conflict clause and
fails on the first row violating that constraint.
-/

structure RentRecord where
  loc_location_id : Nat
  currency : String
  measurement : String
  date : Option String
  price : Option Int
  size : Option Int
  transaction_type : Option String
deriving DecidableEq

def sameRentKey (a b : RentRecord) : Prop :=
  a.loc_location_id = b.loc_location_id ∧ a.currency = b.currency ∧
  a.measurement = b.measurement ∧ a.date = b.date ∧ a.price = b.price ∧
  a.size = b.size

instance (a b : RentRecord) : Decidable (sameRentKey a b) := by
  unfold sameRentKey
  infer_instance

/-- A row about to be inserted violates the partial unique index exactly when
it has a date and a price and a covered row with the same key is present. -/
def rentConflict (t : List RentRecord) (r : RentRecord) : Prop :=
  r.date ≠ none ∧ r.price ≠ none ∧ ∃ s ∈ t, sameRentKey s r

instance (t : List RentRecord) (r : RentRecord) : Decidable (rentConflict t r) := by
  unfold rentConflict
  infer_instance

/-- One row streamed by COPY into transaction_raw_rent. -/
def copyRentRow (t : List RentRecord) (r : RentRecord) :
    Except DbError (List RentRecord) :=
  if rentConflict t r then Except.error DbError.uniqueViolation
  else Except.ok (t ++ [r])

/-- The execute_values fallback: multi-row insert with the ON CONFLICT DO
NOTHING clause, applied to the same unmodified batch. -/
def bulk_insert_with_execute_values_fallback (t b : List RentRecord) :
    List RentRecord :=
  b.foldl (fun t2 r => if rentConflict t2 r then t2 else t2 ++ [r]) t

/-- _bulk_insert_with_copy_optimized: try COPY; on failure roll the
transaction back and retry the same batch through the fallback insert. -/
def bulk_insert_with_copy_optimized (t b : List RentRecord) :
    Except DbError (List RentRecord) :=
  match b.foldlM copyRentRow t with
  | Except.ok t2 => Except.ok t2
  | Except.error _ => Except.ok (bulk_insert_with_execute_values_fallback t b)

/-- Claim C6 counterexample: it is not true of every COPY fast path in the
repository that a failure is retried through a conflict-clause insert.  The
cma_sales COPY path (_bulk_insert_with_copy) simply re-raises: on a batch
with a repeated natural key it returns the error to its caller. -/
theorem copy_failure_never_propagates_false :
    ¬ (∀ (t b : List CmaRecord), ∃ t2,
        bulk_insert_with_copy t b = Except.ok t2) := by
  intro h
  obtain ⟨t2, h2⟩ := h [] [rec0, rec0]
  rw [bulk_insert_with_copy_dup_head [] rec0 [] (by simp [cmaKeys])] at h2
  exact Except.noConfusion h2

/-- Claim C6, amended: for the transaction_raw_rent path the claim holds:
whenever the COPY fast path fails, _bulk_insert_with_copy_optimized rolls the
transaction back (no partial batch survives) and retries the same unmodified
batch through the execute_values insert with its ON CONFLICT DO NOTHING
clause, returning success; the cma_sales COPY path, in contrast, propagates
the failure to its caller (the counterexample above). -/
theorem copy_optimized_rolls_back_and_falls_back (t b : List RentRecord)
    (e : DbError) (hfail : b.foldlM copyRentRow t = Except.error e) :
    bulk_insert_with_copy_optimized t b =
      Except.ok (bulk_insert_with_execute_values_fallback t b) := by
  unfold bulk_insert_with_copy_optimized
  rw [hfail]

def rentRec0 : RentRecord :=
  ⟨42, "aed", "int", some "2024-01-01", some 1000, some 80, some "Rent"⟩

/-- Witness for copy_optimized_rolls_back_and_falls_back: a two-row batch
with a repeated key makes COPY fail, and the operation still succeeds with
exactly one row inserted by the fallback. -/
theorem copy_optimized_rolls_back_and_falls_back_witness :
    bulk_insert_with_copy_optimized [] [rentRec0, rentRec0] =
      Except.ok [rentRec0] := by
  have h := copy_optimized_rolls_back_and_falls_back [] [rentRec0, rentRec0]
    DbError.uniqueViolation rfl
  rw [h]
  rfl

/-! ## Task generation and resume filter (import_cma_sales.py,
generate_api_tasks / get_processed_property_ids / process_cma_sales)

The parameter dimensions are the importer's hard-coded lists; the subtype
dimension depends on the property type through the property_type_subtypes
mapping.  A property row with a falsy id (0 stands for the falsy values) is
skipped.
-/

def cma_aliases : List String := ["last-fifteen"]
def cma_currencies : List String := ["aed"]
def cma_measurements : List String := ["int"]
def cma_property_types : List String :=
  ["Commercial", "Land", "Residential", "Office"]

def property_type_subtypes (pt : String) : List String :=
  if pt = "Commercial" then
    ["Industrial-Warehouse", "Other", "Shop", "Showroom", "Sized Partition",
     "Sport & Entertainment", "Villa", "Whole Building", "Workshop"]
  else if pt = "Land" then
    ["Commercial Land", "Land for Agriculture", "Land for Airport",
     "Land for Education", "Land for Government Housing",
     "Land for Government Organizations", "Land for Industrial",
     "Land for Labor Camp", "Land for Shopping Mall", "Land for Sports",
     "Land for Warehouse", "Land - General", "Other Land", "Residential Land"]
  else if pt = "Residential" then
    ["Apartment", "Serviced/Hotel Apartment", "Villa", "Villa Plot"]
  else if pt = "Office" then
    ["Medical Office", "Office", "Sized Partition", "Whole Building"]
  else []

structure ApiTask where
  property_id : Nat
  alias_ : String
  currency : String
  measurement : String
  property_type : String
  property_subtype : String
deriving DecidableEq

/-- generate_api_tasks: the nested loops over the parameter dimensions.  The
max_combinations_per_property argument is accepted but never read by the
source body. -/
def generate_api_tasks (properties : List Nat)
    (max_combinations_per_property : Nat) : List ApiTask :=
  properties.bind fun pid =>
    if pid = 0 then [] else
    cma_aliases.bind fun a =>
    cma_currencies.bind fun c =>
    cma_measurements.bind fun m =>
    cma_property_types.bind fun pt =>
    (property_type_subtypes pt).map fun ps => ⟨pid, a, c, m, pt, ps⟩

/-- get_processed_property_ids: SELECT DISTINCT property_id FROM cma_sales
WHERE alias, currency, measurement match the first configured value and
property_type matches the FIRST property type only. -/
def get_processed_property_ids (t : List CmaRecord) : List Nat :=
  ((t.filter fun r => decide (r.alias_ = "last-fifteen" ∧ r.currency = "aed" ∧
      r.measurement = "int" ∧ r.property_type = "Commercial")).map
    (fun r => r.property_id)).dedup

/-- Resume step of process_cma_sales: when the processed set is non-empty,
drop every task whose property_id belongs to it. -/
def resume_filter (api_tasks : List ApiTask) (t : List CmaRecord) :
    List ApiTask :=
  if get_processed_property_ids t = [] then api_tasks
  else api_tasks.filter fun task =>
    decide (task.property_id ∉ get_processed_property_ids t)

/-- Spec-side definition, following the words of the claim: a work item is
persisted when the destination holds a row with the item's unit id and its
exact parameter values. -/
def specTaskPersisted (t : List CmaRecord) (task : ApiTask) : Prop :=
  ∃ r ∈ t, r.property_id = task.property_id ∧ r.alias_ = task.alias_ ∧
    r.currency = task.currency ∧ r.measurement = task.measurement ∧
    r.property_type = task.property_type ∧
    r.property_subtype = task.property_subtype

instance (t : List CmaRecord) (task : ApiTask) :
    Decidable (specTaskPersisted t task) := by
  unfold specTaskPersisted
  infer_instance

/-- Claim C4 counterexample: the Resume Filter does not return exactly the
unpersisted work items.  With one persisted row for (property 1, Commercial,
Shop), the work item (property 1, Residential, Apartment) is not persisted
under the signature of the run, yet it is removed from the work list. -/
theorem resume_filter_exact_false :
    ¬ (∀ (api_tasks : List ApiTask) (t : List CmaRecord) (task : ApiTask),
        task ∈ api_tasks → ¬ specTaskPersisted t task →
        task ∈ resume_filter api_tasks t) := by
  intro h
  have hmem := h (generate_api_tasks [1] 20) [rec0]
    ⟨1, "last-fifteen", "aed", "int", "Residential", "Apartment"⟩
    (by decide) (by decide)
  exact absurd hmem (by decide)

lemma mem_get_processed_property_ids (t : List CmaRecord) (p : Nat) :
    p ∈ get_processed_property_ids t ↔
      ∃ r ∈ t, r.property_id = p ∧ r.alias_ = "last-fifteen" ∧
        r.currency = "aed" ∧ r.measurement = "int" ∧
        r.property_type = "Commercial" := by
  unfold get_processed_property_ids
  rw [List.mem_dedup]
  simp only [List.mem_map, List.mem_filter, decide_eq_true_eq]
  constructor
  · rintro ⟨r, ⟨hr, hc⟩, rfl⟩
    exact ⟨r, hr, rfl, hc⟩
  · rintro ⟨r, hr, rfl, hc⟩
    exact ⟨r, ⟨hr, hc⟩, rfl⟩

/-- Claim C4, amended: the Resume Filter keeps exactly the work items whose
property has no persisted row matching the first value of each parameter
dimension (alias last-fifteen, currency aed, measurement int, property_type
Commercial), with the property_subtype and the task's own property_type
ignored: a property persisted under any Commercial subtype loses all of its
work items (over-skipping), and rows persisted under the other property
types do not count as processed (under-skipping). -/
theorem resume_filter_characterization (api_tasks : List ApiTask)
    (t : List CmaRecord) (task : ApiTask) :
    task ∈ resume_filter api_tasks t ↔
      task ∈ api_tasks ∧
      ¬ ∃ r ∈ t, r.property_id = task.property_id ∧
        r.alias_ = "last-fifteen" ∧ r.currency = "aed" ∧
        r.measurement = "int" ∧ r.property_type = "Commercial" := by
  unfold resume_filter
  split_ifs with hnil
  · have hforall : ¬ ∃ r ∈ t, r.property_id = task.property_id ∧
        r.alias_ = "last-fifteen" ∧ r.currency = "aed" ∧
        r.measurement = "int" ∧ r.property_type = "Commercial" := by
      rintro ⟨r, hr, hp, hc⟩
      have hmm : r.property_id ∈ get_processed_property_ids t :=
        (mem_get_processed_property_ids t r.property_id).mpr ⟨r, hr, rfl, hc⟩
      rw [hnil] at hmm
      exact absurd hmm (List.not_mem_nil _)
    exact ⟨fun hmem => ⟨hmem, hforall⟩, fun h => h.1⟩
  · rw [List.mem_filter]
    simp only [decide_eq_true_eq, mem_get_processed_property_ids]

/-! ## Capped combination loops (import_cma2_rents.py,
process_single_property)

The five nested loops carry the combinations_tried counter; the innermost
body refuses to start a new combination once the cap is reached, and each
enclosing loop breaks as soon as the counter has reached the cap.
-/

structure Cma2Combo where
  alias_ : String
  currency : String
  measurement : String
  property_type : String
  property_subtype : String
deriving DecidableEq

def loopSubtypes (cap : Nat) (a c m pt : String) :
    List String → Nat → List Cma2Combo → Nat × List Cma2Combo
  | [], tried, acc => (tried, acc)
  | ps :: rest, tried, acc =>
      if cap ≤ tried then (tried, acc)
      else loopSubtypes cap a c m pt rest (tried + 1)
        (acc ++ [⟨a, c, m, pt, ps⟩])

def loopTypes (cap : Nat) (a c m : String) (psubtypes : List String) :
    List String → Nat → List Cma2Combo → Nat × List Cma2Combo
  | [], tried, acc => (tried, acc)
  | pt :: rest, tried, acc =>
      let r := loopSubtypes cap a c m pt psubtypes tried acc
      if cap ≤ r.1 then r
      else loopTypes cap a c m psubtypes rest r.1 r.2

def loopMeasurements (cap : Nat) (a c : String)
    (ptypes psubtypes : List String) :
    List String → Nat → List Cma2Combo → Nat × List Cma2Combo
  | [], tried, acc => (tried, acc)
  | m :: rest, tried, acc =>
      let r := loopTypes cap a c m psubtypes ptypes tried acc
      if cap ≤ r.1 then r
      else loopMeasurements cap a c ptypes psubtypes rest r.1 r.2

def loopCurrencies (cap : Nat) (a : String)
    (measurements ptypes psubtypes : List String) :
    List String → Nat → List Cma2Combo → Nat × List Cma2Combo
  | [], tried, acc => (tried, acc)
  | c :: rest, tried, acc =>
      let r := loopMeasurements cap a c ptypes psubtypes measurements tried acc
      if cap ≤ r.1 then r
      else loopCurrencies cap a measurements ptypes psubtypes rest r.1 r.2

def loopAliases (cap : Nat)
    (currencies measurements ptypes psubtypes : List String) :
    List String → Nat → List Cma2Combo → Nat × List Cma2Combo
  | [], tried, acc => (tried, acc)
  | a :: rest, tried, acc =>
      let r := loopCurrencies cap a measurements ptypes psubtypes
        currencies tried acc
      if cap ≤ r.1 then r
      else loopAliases cap currencies measurements ptypes psubtypes rest r.1 r.2

/-- process_single_property, reduced to the sequence of parameter
combinations it attempts for one property before the cap stops it. -/
def process_single_property_combos
    (aliases currencies measurements ptypes psubtypes : List String)
    (cap : Nat) : List Cma2Combo :=
  (loopAliases cap currencies measurements ptypes psubtypes aliases 0 []).2

/-- Claim C8 counterexample: task generation does not truncate per unit at
the combination cap.  generate_api_tasks with cap 2 still yields all 31
combinations for a single property. -/
theorem task_generation_cap_false :
    ¬ (∀ (properties : List Nat) (cap : Nat) (p : Nat),
        ((generate_api_tasks properties cap).filter
          fun task => task.property_id == p).length ≤ cap) := by
  intro h
  exact absurd (h [1] 2 1) (by decide)

/-- Claim C8, amended: generate_api_tasks of the cma_sales importer ignores
its max_combinations_per_property argument entirely and yields every
combination in the fixed nested dimension order, while process_single_property
of the cma2_rents importer does truncate at the cap in nested order: with
dimensions A,B crossed with X,Y and cap 2 it attempts exactly (A,X) then
(A,Y) and never any (B,*) combination, identically for every unit. -/
theorem task_generation_cap_behaviour :
    (∀ (properties : List Nat) (cap cap2 : Nat),
      generate_api_tasks properties cap = generate_api_tasks properties cap2) ∧
    process_single_property_combos ["al"] ["cu"] ["me"] ["A", "B"] ["X", "Y"] 2 =
      [⟨"al", "cu", "me", "A", "X"⟩, ⟨"al", "cu", "me", "A", "Y"⟩] := by
  exact ⟨fun properties cap cap2 => rfl, by decide⟩

/-! ## Pagination loops (import_transaction_sales.py _fetch_and_process_one
and import_transaction_rent.py _fetch_location_data)

The server is a list of pages: the payload of the n-th request issued for
the work item is entry n (requests beyond the list see an empty page without
a cursor).  API calls are assumed successful and results well-formed; the
per-endpoint processors copy the price of each raw element into the
flattened record, which is all these claims inspect.
-/

structure RawRec where
  rid : Nat
  price : Option Int
deriving DecidableEq

structure Page where
  results : List RawRec
  scroll_id : Option String
deriving DecidableEq

structure FlatRecord where
  location_id : Nat
  price : Option Int
  rid : Nat
deriving DecidableEq

/-- DataProcessor.process_transaction_sales_data, reduced to the fields the
claims inspect: price is copied from the raw element. -/
def process_transaction_sales_data (results : List RawRec) (locId : Nat) :
    List FlatRecord :=
  results.map fun r => ⟨locId, r.price, r.rid⟩

/-- _process_api_response with ResponseFlattener.flatten_response: price is
copied from the raw element. -/
def process_api_response (results : List RawRec) (locId : Nat) :
    List FlatRecord :=
  results.map fun r => ⟨locId, r.price, r.rid⟩

structure SalesOutcome where
  total_records : Nat
  requests : Nat
  transforms : Nat
  table : List FlatRecord
deriving DecidableEq

/-- Loop body of _fetch_and_process_one (transaction sales): an empty page
breaks; otherwise the page is counted, processed and its non-null-price
records inserted unless dry_run, and the loop continues while the response
carries a scroll_id, up to max_pages iterations. -/
def fetchSalesGo (server : List Page) (locId : Nat) (dryRun : Bool) :
    Nat → Nat → Nat → Nat → Nat → List FlatRecord → SalesOutcome
  | 0, _, total, reqs, tr, t => ⟨total, reqs, tr, t⟩
  | Nat.succ fuel, i, total, reqs, tr, t =>
      let payload := server.getD i ⟨[], none⟩
      if payload.results = [] then ⟨total, reqs + 1, tr, t⟩
      else
        let total2 := total + payload.results.length
        if dryRun then
          match payload.scroll_id with
          | none => ⟨total2, reqs + 1, tr, t⟩
          | some _ =>
              fetchSalesGo server locId dryRun fuel (i + 1) total2 (reqs + 1)
                tr t
        else
          let valid := (process_transaction_sales_data payload.results
            locId).filter fun r => decide (r.price ≠ none)
          let t2 := if valid = [] then t else t ++ valid
          match payload.scroll_id with
          | none => ⟨total2, reqs + 1, tr + 1, t2⟩
          | some _ =>
              fetchSalesGo server locId dryRun fuel (i + 1) total2 (reqs + 1)
                (tr + 1) t2

def fetch_and_process_one (server : List Page) (maxPages : Nat)
    (dryRun : Bool) (locId : Nat) (t : List FlatRecord) : SalesOutcome :=
  fetchSalesGo server locId dryRun maxPages 0 0 0 0 t

structure RentOutcome where
  total_records : Nat
  requests : Nat
  transforms : Nat
  accumulated : List FlatRecord
deriving DecidableEq

/-- Loop body of _fetch_location_data (transaction rent): an empty page does
NOT break by itself, control falls through to the scroll_id check; outside
dry_run a non-empty page is processed and, when no record keeps a non-null
price, the loop breaks; otherwise the valid records are accumulated and the
loop continues while the response carries a scroll_id, up to max_pages
iterations. -/
def fetchRentGo (server : List Page) (locId : Nat) (dryRun : Bool) :
    Nat → Nat → Nat → Nat → Nat → List FlatRecord → RentOutcome
  | 0, _, total, reqs, tr, acc => ⟨total, reqs, tr, acc⟩
  | Nat.succ fuel, i, total, reqs, tr, acc =>
      let payload := server.getD i ⟨[], none⟩
      if payload.results = [] then
        match payload.scroll_id with
        | none => ⟨total, reqs + 1, tr, acc⟩
        | some _ =>
            fetchRentGo server locId dryRun fuel (i + 1) total (reqs + 1)
              tr acc
      else
        let total2 := total + payload.results.length
        if dryRun then
          match payload.scroll_id with
          | none => ⟨total2, reqs + 1, tr, acc⟩
          | some _ =>
              fetchRentGo server locId dryRun fuel (i + 1) total2 (reqs + 1)
                tr acc
        else
          let valid := (process_api_response payload.results locId).filter
            fun r => decide (r.price ≠ none)
          if valid = [] then ⟨total2, reqs + 1, tr + 1, acc⟩
          else
            match payload.scroll_id with
            | none => ⟨total2, reqs + 1, tr + 1, acc ++ valid⟩
            | some _ =>
                fetchRentGo server locId dryRun fuel (i + 1) total2 (reqs + 1)
                  (tr + 1) (acc ++ valid)

def fetch_location_data (server : List Page) (maxPages locId : Nat)
    (dryRun : Bool) : RentOutcome :=
  fetchRentGo server locId dryRun maxPages 0 0 0 0 []

def rawPage (base n : Nat) : List RawRec :=
  (List.range n).map fun i => ⟨base + i, some 100⟩

/-- The scenario server: pages of size 50, 50 and 0, every response carrying
a continuation cursor. -/
def server3 : List Page :=
  [⟨rawPage 0 50, some "s1"⟩, ⟨rawPage 100 50, some "s2"⟩, ⟨[], some "s3"⟩]

/-- Claim C5 counterexample: it is not true of every pagination loop in the
cited importers that an empty page stops it.  For pages of size 50, 50, 0
whose empty third page carries a cursor, the transaction rent loop issues a
fourth request. -/
theorem pagination_stops_at_empty_page_false :
    ¬ (∀ (server : List Page) (maxPages locId : Nat),
        3 ≤ maxPages →
        (server.map fun p => p.results.length) = [50, 50, 0] →
        (fetch_location_data server maxPages locId false).requests ≤ 3) := by
  intro h
  exact absurd (h server3 5 7 (by norm_num) (by decide)) (by decide)

/-- Claim C5, amended: the transaction sales loop behaves as claimed: on
pages of size 50, 50, 0 it enqueues exactly 100 records, stops at the empty
third page even though it carries a cursor, and issues no fourth request;
the transaction rent loop stops only on a missing cursor, the max-page
bound, or a non-empty all-null-price page, so on the same pages it issues a
fourth request (and stops there because the fourth response has no cursor). -/
theorem pagination_scenario_behaviour :
    (fetch_and_process_one server3 5 false 7 []).total_records = 100 ∧
    (fetch_and_process_one server3 5 false 7 []).requests = 3 ∧
    (fetch_and_process_one server3 5 false 7 []).table.length = 100 ∧
    (fetch_location_data server3 5 7 false).requests = 4 := by
  refine ⟨by decide, by decide, by decide, by decide⟩

lemma mem_valid_price_ne_none {rs : List RawRec} {locId : Nat} {r : FlatRecord}
    (h : r ∈ (process_transaction_sales_data rs locId).filter
      fun r2 => decide (r2.price ≠ none)) : r.price ≠ none :=
  of_decide_eq_true (List.mem_filter.mp h).2

lemma fetchSalesGo_table_mem (server : List Page) (locId : Nat)
    (dryRun : Bool) :
    ∀ (fuel i total reqs tr : Nat) (t : List FlatRecord) (r : FlatRecord),
      r ∈ (fetchSalesGo server locId dryRun fuel i total reqs tr t).table →
      r ∈ t ∨ r.price ≠ none := by
  intro fuel
  induction fuel with
  | zero =>
      intro i total reqs tr t r hr
      exact Or.inl hr
  | succ fuel ih =>
      intro i total reqs tr t r hr
      simp only [fetchSalesGo] at hr
      by_cases hres : (server.getD i ⟨[], none⟩).results = []
      · rw [if_pos hres] at hr
        exact Or.inl hr
      · rw [if_neg hres] at hr
        cases dryRun with
        | true =>
            rw [if_pos rfl] at hr
            cases hscroll : (server.getD i ⟨[], none⟩).scroll_id with
            | none =>
                rw [hscroll] at hr
                exact Or.inl hr
            | some sid =>
                rw [hscroll] at hr
                exact ih _ _ _ _ _ r hr
        | false =>
            rw [if_neg Bool.false_ne_true] at hr
            have hsub : ∀ r2 : FlatRecord,
                r2 ∈ (if ((process_transaction_sales_data
                    (server.getD i ⟨[], none⟩).results locId).filter
                    fun r3 => decide (r3.price ≠ none)) = [] then t
                  else t ++ (process_transaction_sales_data
                    (server.getD i ⟨[], none⟩).results locId).filter
                    fun r3 => decide (r3.price ≠ none)) →
                r2 ∈ t ∨ r2.price ≠ none := by
              intro r2 h2
              split at h2
              · exact Or.inl h2
              · rcases List.mem_append.mp h2 with h3 | h3
                · exact Or.inl h3
                · exact Or.inr (mem_valid_price_ne_none h3)
            cases hscroll : (server.getD i ⟨[], none⟩).scroll_id with
            | none =>
                rw [hscroll] at hr
                exact hsub r hr
            | some sid =>
                rw [hscroll] at hr
                rcases ih _ _ _ _ _ r hr with h2 | h2
                · exact hsub r h2
                · exact Or.inr h2

lemma fetchRentGo_acc_mem (server : List Page) (locId : Nat)
    (dryRun : Bool) :
    ∀ (fuel i total reqs tr : Nat) (acc : List FlatRecord) (r : FlatRecord),
      r ∈ (fetchRentGo server locId dryRun fuel i total reqs tr
        acc).accumulated →
      r ∈ acc ∨ r.price ≠ none := by
  intro fuel
  induction fuel with
  | zero =>
      intro i total reqs tr acc r hr
      exact Or.inl hr
  | succ fuel ih =>
      intro i total reqs tr acc r hr
      simp only [fetchRentGo] at hr
      by_cases hres : (server.getD i ⟨[], none⟩).results = []
      · rw [if_pos hres] at hr
        cases hscroll : (server.getD i ⟨[], none⟩).scroll_id with
        | none =>
            rw [hscroll] at hr
            exact Or.inl hr
        | some sid =>
            rw [hscroll] at hr
            exact ih _ _ _ _ _ r hr
      · rw [if_neg hres] at hr
        cases dryRun with
        | true =>
            rw [if_pos rfl] at hr
            cases hscroll : (server.getD i ⟨[], none⟩).scroll_id with
            | none =>
                rw [hscroll] at hr
                exact Or.inl hr
            | some sid =>
                rw [hscroll] at hr
                exact ih _ _ _ _ _ r hr
        | false =>
            rw [if_neg Bool.false_ne_true] at hr
            by_cases hval : ((process_api_response
                (server.getD i ⟨[], none⟩).results locId).filter
                fun r3 => decide (r3.price ≠ none)) = []
            · rw [if_pos hval] at hr
              exact Or.inl hr
            · rw [if_neg hval] at hr
              have hsub : ∀ r2 : FlatRecord,
                  r2 ∈ acc ++ (process_api_response
                    (server.getD i ⟨[], none⟩).results locId).filter
                    (fun r3 => decide (r3.price ≠ none)) →
                  r2 ∈ acc ∨ r2.price ≠ none := by
                intro r2 h2
                rcases List.mem_append.mp h2 with h3 | h3
                · exact Or.inl h3
                · exact Or.inr (of_decide_eq_true (List.mem_filter.mp h3).2)
              cases hscroll : (server.getD i ⟨[], none⟩).scroll_id with
              | none =>
                  rw [hscroll] at hr
                  exact hsub r hr
              | some sid =>
                  rw [hscroll] at hr
                  rcases ih _ _ _ _ _ r hr with h2 | h2
                  · exact hsub r h2
                  · exact Or.inr h2

/-- Claim C10: in the transaction sales importer a fetched record whose
price is null is never inserted into the destination, in the transaction
rent importer such a record is never accumulated for insertion, and in the
rent importer a non-empty page all of whose records carry a null price
terminates pagination for the work item after that single request even when
the response carries a continuation cursor. -/
theorem null_price_records_never_inserted :
    (∀ (server : List Page) (maxPages locId : Nat) (dryRun : Bool)
        (t : List FlatRecord) (r : FlatRecord),
        r ∈ (fetch_and_process_one server maxPages dryRun locId t).table →
        r ∈ t ∨ r.price ≠ none) ∧
    (∀ (server : List Page) (maxPages locId : Nat) (dryRun : Bool)
        (r : FlatRecord),
        r ∈ (fetch_location_data server maxPages locId dryRun).accumulated →
        r.price ≠ none) ∧
    (∀ (server : List Page) (maxPages locId : Nat),
        1 ≤ maxPages →
        (server.getD 0 ⟨[], none⟩).results ≠ [] →
        (∀ r ∈ process_api_response (server.getD 0 ⟨[], none⟩).results locId,
          r.price = none) →
        (fetch_location_data server maxPages locId false).requests = 1) := by
  refine ⟨?_, ?_, ?_⟩
  · intro server maxPages locId dryRun t r hr
    exact fetchSalesGo_table_mem server locId dryRun maxPages 0 0 0 0 t r hr
  · intro server maxPages locId dryRun r hr
    rcases fetchRentGo_acc_mem server locId dryRun maxPages 0 0 0 0 [] r hr
      with h2 | h2
    · exact absurd h2 (List.not_mem_nil r)
    · exact h2
  · intro server maxPages locId h1 h2 h3
    obtain ⟨fuel, rfl⟩ : ∃ fuel, maxPages = fuel + 1 :=
      ⟨maxPages - 1, (Nat.succ_pred_eq_of_pos h1).symm⟩
    have hval : ((process_api_response
        (server.getD 0 ⟨[], none⟩).results locId).filter
        fun r3 => decide (r3.price ≠ none)) = [] := by
      rw [List.filter_eq_nil_iff]
      intro a ha
      simp only [decide_eq_true_eq]
      intro hne
      exact hne (h3 a ha)
    unfold fetch_location_data
    simp only [fetchRentGo]
    rw [if_neg h2, if_neg Bool.false_ne_true, if_pos hval]

def nullServer : List Page :=
  [⟨[⟨0, none⟩, ⟨1, none⟩], some "s1"⟩, ⟨rawPage 0 3, some "s2"⟩]

/-- Witness for null_price_records_never_inserted: a record inserted by the
scenario run has a non-null price; an accumulated rent record has a non-null
price; and a first page of two null-price records with a cursor stops the
rent loop after one request. -/
theorem null_price_records_never_inserted_witness :
    ((⟨7, some 100, 0⟩ : FlatRecord) ∈ ([] : List FlatRecord) ∨
      (⟨7, some 100, 0⟩ : FlatRecord).price ≠ none) ∧
    (⟨7, some 100, 0⟩ : FlatRecord).price ≠ none ∧
    (fetch_location_data nullServer 5 7 false).requests = 1 := by
  refine ⟨?_, ?_, ?_⟩
  · exact null_price_records_never_inserted.1 server3 5 7 false []
      ⟨7, some 100, 0⟩ (by decide)
  · exact null_price_records_never_inserted.2.1 server3 5 7 false
      ⟨7, some 100, 0⟩ (by decide)
  · exact null_price_records_never_inserted.2.2 nullServer 5 7
      (by norm_num) (by decide) (by decide)

/-! ## Dry-run behaviour (process_cma_sales, _fetch_and_process_one,
_fetch_location_data, process_transaction_list_etl)

process_cma_sales logs and returns as soon as the dry-run flag is set, before
properties are read or any task is generated, so a dry run issues zero API
calls; outside dry-run every task surviving the resume filter triggers one
call. -/

def process_cma_sales_fetches (dryRun : Bool) (properties : List Nat)
    (t : List CmaRecord) : Nat :=
  if dryRun then 0
  else (resume_filter (generate_api_tasks properties 10) t).length

structure ListWorkItem where
  location_id : Nat
  param_rid : Nat
deriving DecidableEq

structure RunEffects where
  fetches : Nat
  transforms : Nat
  writes : Nat
deriving DecidableEq

/-- DataProcessor.process_transaction_list_data, reduced to the fields the
claims inspect. -/
def process_transaction_list_data (results : List RawRec) (locId : Nat) :
    List FlatRecord :=
  results.map fun r => ⟨locId, r.price, r.rid⟩

/-- Main loop of process_transaction_list_etl: every work item is fetched;
a non-empty response is always processed; the insert is performed only when
processed data exists and dry_run is off. -/
def process_transaction_list_etl (dryRun : Bool)
    (server : ListWorkItem → List RawRec) :
    List ListWorkItem → List FlatRecord → RunEffects →
      RunEffects × List FlatRecord
  | [], t, eff => (eff, t)
  | w :: rest, t, eff =>
      let results := server w
      if results = [] then
        process_transaction_list_etl dryRun server rest t
          ⟨eff.fetches + 1, eff.transforms, eff.writes⟩
      else
        let processed := process_transaction_list_data results w.location_id
        if processed ≠ [] ∧ dryRun = false then
          process_transaction_list_etl dryRun server rest (t ++ processed)
            ⟨eff.fetches + 1, eff.transforms + 1, eff.writes + 1⟩
        else
          process_transaction_list_etl dryRun server rest t
            ⟨eff.fetches + 1, eff.transforms + 1, eff.writes⟩

/-- Claim C9 counterexample: a dry run does not still perform the API fetch
step.  In the cma_sales importer the dry run returns before generating any
task: it issues 0 API calls where the live run for one property issues 31. -/
theorem dry_run_still_fetches_false :
    ¬ (∀ (properties : List Nat) (t : List CmaRecord),
        process_cma_sales_fetches true properties t =
          process_cma_sales_fetches false properties t) := by
  intro h
  exact absurd (h [1] []) (by decide)

lemma fetchSalesGo_dry (server : List Page) (locId : Nat) :
    ∀ (fuel i total reqs tr : Nat) (t : List FlatRecord),
      (fetchSalesGo server locId true fuel i total reqs tr t).table = t ∧
      (fetchSalesGo server locId true fuel i total reqs tr t).transforms = tr := by
  intro fuel
  induction fuel with
  | zero =>
      intro i total reqs tr t
      exact ⟨rfl, rfl⟩
  | succ fuel ih =>
      intro i total reqs tr t
      simp only [fetchSalesGo]
      by_cases hres : (server.getD i ⟨[], none⟩).results = []
      · rw [if_pos hres]
        exact ⟨rfl, rfl⟩
      · rw [if_neg hres, if_true]
        cases hscroll : (server.getD i ⟨[], none⟩).scroll_id with
        | none => exact ⟨rfl, rfl⟩
        | some sid => exact ih _ _ _ _ _

lemma fetchRentGo_dry (server : List Page) (locId : Nat) :
    ∀ (fuel i total reqs tr : Nat) (acc : List FlatRecord),
      (fetchRentGo server locId true fuel i total reqs tr acc).accumulated =
        acc ∧
      (fetchRentGo server locId true fuel i total reqs tr acc).transforms =
        tr := by
  intro fuel
  induction fuel with
  | zero =>
      intro i total reqs tr acc
      exact ⟨rfl, rfl⟩
  | succ fuel ih =>
      intro i total reqs tr acc
      simp only [fetchRentGo]
      by_cases hres : (server.getD i ⟨[], none⟩).results = []
      · rw [if_pos hres]
        cases hscroll : (server.getD i ⟨[], none⟩).scroll_id with
        | none => exact ⟨rfl, rfl⟩
        | some sid => exact ih _ _ _ _ _
      · rw [if_neg hres, if_true]
        cases hscroll : (server.getD i ⟨[], none⟩).scroll_id with
        | none => exact ⟨rfl, rfl⟩
        | some sid => exact ih _ _ _ _ _

lemma process_transaction_list_etl_dry (server : ListWorkItem → List RawRec) :
    ∀ (work : List ListWorkItem) (t : List FlatRecord) (eff : RunEffects),
      (process_transaction_list_etl true server work t eff).2 = t ∧
      (process_transaction_list_etl true server work t eff).1.writes =
        eff.writes ∧
      (process_transaction_list_etl true server work t eff).1.fetches =
        eff.fetches + work.length := by
  intro work
  induction work with
  | nil =>
      intro t eff
      exact ⟨rfl, rfl, rfl⟩
  | cons w rest ih =>
      intro t eff
      simp only [process_transaction_list_etl]
      by_cases hres : server w = []
      · rw [if_pos hres]
        obtain ⟨e1, e2, e3⟩ := ih t ⟨eff.fetches + 1, eff.transforms, eff.writes⟩
        refine ⟨e1, e2, ?_⟩
        rw [e3]
        show eff.fetches + 1 + rest.length = eff.fetches + (w :: rest).length
        simp only [List.length_cons]
        omega
      · rw [if_neg hres]
        have hcond : ¬ (process_transaction_list_data (server w) w.location_id ≠ [] ∧
            true = false) := by
          rintro ⟨-, hab⟩
          simp at hab
        rw [if_neg hcond]
        obtain ⟨e1, e2, e3⟩ := ih t
          ⟨eff.fetches + 1, eff.transforms + 1, eff.writes⟩
        refine ⟨e1, e2, ?_⟩
        rw [e3]
        show eff.fetches + 1 + rest.length = eff.fetches + (w :: rest).length
        simp only [List.length_cons]
        omega

lemma process_transaction_list_etl_transforms
    (server : ListWorkItem → List RawRec) (dryRun : Bool) :
    ∀ (work : List ListWorkItem) (t : List FlatRecord) (eff : RunEffects),
      (process_transaction_list_etl dryRun server work t eff).1.transforms =
        eff.transforms + work.countP fun w => decide (server w ≠ []) := by
  intro work
  induction work with
  | nil =>
      intro t eff
      simp [process_transaction_list_etl]
  | cons w rest ih =>
      intro t eff
      simp only [process_transaction_list_etl]
      by_cases hres : server w = []
      · rw [if_pos hres, ih]
        have hc : (List.countP (fun w2 => decide (server w2 ≠ [])) (w :: rest)) =
            List.countP (fun w2 => decide (server w2 ≠ [])) rest := by
          rw [List.countP_cons]
          simp [hres]
        rw [hc]
      · have hc : (List.countP (fun w2 => decide (server w2 ≠ [])) (w :: rest)) =
            List.countP (fun w2 => decide (server w2 ≠ [])) rest + 1 := by
          rw [List.countP_cons]
          simp [hres]
        split_ifs with hcond
        · rw [ih, hc]
          show eff.transforms + 1 +
              List.countP (fun w2 => decide (server w2 ≠ [])) rest =
            eff.transforms +
              (List.countP (fun w2 => decide (server w2 ≠ [])) rest + 1)
          omega
        · rw [ih, hc]
          show eff.transforms + 1 +
              List.countP (fun w2 => decide (server w2 ≠ [])) rest =
            eff.transforms +
              (List.countP (fun w2 => decide (server w2 ≠ [])) rest + 1)
          omega

/-- Claim C9, amended: with the dry-run flag set no importer writes to the
destination (the cma_sales run issues no API call at all; the sales and rent
fetch loops leave the destination and accumulator untouched and perform no
transform; the transaction list loop writes nothing and leaves the
destination unchanged), the transaction list loop still fetches every work
item and performs exactly the transforms a live run would, while the rent
and sales loops skip the transform step and the cma_sales run skips even the
fetch step. -/
theorem dry_run_no_writes :
    (∀ (properties : List Nat) (t : List CmaRecord),
      process_cma_sales_fetches true properties t = 0) ∧
    (∀ (server : List Page) (maxPages locId : Nat) (t : List FlatRecord),
      (fetch_and_process_one server maxPages true locId t).table = t ∧
      (fetch_and_process_one server maxPages true locId t).transforms = 0) ∧
    (∀ (server : List Page) (maxPages locId : Nat),
      (fetch_location_data server maxPages locId true).accumulated = [] ∧
      (fetch_location_data server maxPages locId true).transforms = 0) ∧
    (∀ (work : List ListWorkItem) (server : ListWorkItem → List RawRec)
        (t : List FlatRecord),
      (process_transaction_list_etl true server work t ⟨0, 0, 0⟩).2 = t ∧
      (process_transaction_list_etl true server work t ⟨0, 0, 0⟩).1.writes = 0 ∧
      (process_transaction_list_etl true server work t ⟨0, 0, 0⟩).1.fetches =
        work.length ∧
      (process_transaction_list_etl true server work t ⟨0, 0, 0⟩).1.transforms =
        (process_transaction_list_etl false server work t
          ⟨0, 0, 0⟩).1.transforms) := by
  refine ⟨fun properties t => rfl, ?_, ?_, ?_⟩
  · intro server maxPages locId t
    exact fetchSalesGo_dry server locId maxPages 0 0 0 0 t
  · intro server maxPages locId
    exact fetchRentGo_dry server locId maxPages 0 0 0 0 []
  · intro work server t
    obtain ⟨e1, e2, e3⟩ := process_transaction_list_etl_dry server work t
      ⟨0, 0, 0⟩
    refine ⟨e1, e2, e3.trans (Nat.zero_add _), ?_⟩
    rw [process_transaction_list_etl_transforms server true work t ⟨0, 0, 0⟩,
      process_transaction_list_etl_transforms server false work t ⟨0, 0, 0⟩]
